import Mathlib

/-
Verification of the path-relative positioning and coordinate-mapping engine of
GCARenderer (GCA3DRenderer.js and GCA2DRenderer.js).

The JavaScript sources are shallowly embedded: JS numbers that stay rational are
modelled as Rat, JS array indices as Nat/Int, and the JS value `undefined`
(and NaN where it can arise) as `Option`.  Each definition carries a note of the
source function it embeds.
-/

/-- A 3D point, modelling a JS `[x, y, z]` array or a THREE.Vector3. -/
structure Pt3 where
  x : ℚ
  y : ℚ
  z : ℚ
deriving DecidableEq, Repr

instance : Inhabited Pt3 := ⟨⟨0, 0, 0⟩⟩

/-- A mid-line path, as loaded by `_loadPaths`: an id, a point count `n` and the
point array (tangents are not needed by the claims under scrutiny). -/
structure GPath where
  id : ℕ
  n : ℕ
  points : List Pt3
deriving DecidableEq, Repr

instance : Inhabited GPath := ⟨⟨0, 0, []⟩⟩

/-- A landmark of the configuration: GCA id, the id of `anatomy[0]`
(used by `landmarkFromAnatID`), the list of path ids it occurs on, and the
parallel list of position indices. -/
structure Landmark where
  id : ℕ
  anat0 : ℕ
  paths : List ℕ
  position : List ℤ
deriving DecidableEq, Repr

instance : Inhabited Landmark := ⟨⟨0, 0, [], []⟩⟩

/-- An anatomy surface entry of the configuration: its GCA id as it appears in
the display object name, and the optional per-vertex path-index mapping table
loaded from `map_filename`. -/
structure AnatSurf where
  id : List Char
  mapping : Option (List ℚ)
deriving DecidableEq, Repr

/-- The parts of the renderer configuration that the positioning engine
reads: the loaded paths, the landmark table and the anatomy surfaces. -/
structure GConfig where
  paths : List GPath
  landmarks : List Landmark
  anatomy : List AnatSurf
deriving DecidableEq, Repr

/-- Embeds `_clamp(v, mn, mx)`: `v < mn ? mn : v > mx ? mx : v`. -/
def clampI (v mn mx : ℤ) : ℤ :=
  if v < mn then mn else if v > mx then mx else v

/-- JS division returning NaN/Infinity on a zero divisor; `none` models the
non-finite outcomes. -/
def jsDiv (a b : ℚ) : Option ℚ :=
  if b = 0 then none else some (a / b)

/-- Embeds `Math.trunc`: rounding toward zero. -/
def jsTrunc (q : ℚ) : ℤ :=
  if q < 0 then ⌈q⌉ else ⌊q⌋

/-- Embeds `self._config.pathIdToIdx[pid]` (built by `_findCfgPaths`, which maps
each path id to the index of that path in `config.paths`; for duplicated ids the
last one wins in the source, but ids are unique in any loaded configuration, so
the first-match scan below agrees). -/
def pathIdxFromId (ps : List GPath) (pid : ℕ) : Option ℕ :=
  match ps with
  | [] => none
  | p :: rest => if p.id = pid then some 0 else (pathIdxFromId rest pid).map (· + 1)

/-- Embeds the landmark-finding while-loop of `_indexOnPath` (GCA3DRenderer.js
lines 771-782, identical in `_positionOnPath` of GCA2DRenderer.js): scan the
landmark table, record a landmark matching each id, stop as soon as both are
found. -/
def findLmks (lmid0 lmid1 : ℕ) : List Landmark → Option Landmark → Option Landmark →
    Option Landmark × Option Landmark
  | [], m0, m1 => (m0, m1)
  | l :: rest, m0, m1 =>
    if m0.isSome ∧ m1.isSome then (m0, m1)
    else
      findLmks lmid0 lmid1 rest
        (if l.id = lmid0 then some l else m0)
        (if l.id = lmid1 then some l else m1)

/-- Index of the last occurrence of `p` in a list, mirroring the inner
`for(ji ...)` loop of `_indexOnPath`, which overwrites its match data on every
matching `ji` and therefore retains the last occurrence. -/
def lastIdxOf (p : ℕ) : List ℕ → Option ℕ
  | [] => none
  | q :: rest =>
    match (lastIdxOf p rest).map (· + 1) with
    | some j => some j
    | none => if q = p then some 0 else none

/-- Embeds the shared-path scan of `_indexOnPath` (lines 786-800): the outer
while-loop walks landmark-0 path ids while `path_idx` is still undefined; for
each, the inner loop records the last matching occurrence in landmark-1 path
ids together with `pathIdToIdx[path]`; the scan stops at the first outer id for
which the id lookup succeeded.  Returns `(li, ji, path id, path index)`. -/
def sharedScan (ps : List GPath) (inner : List ℕ) : List ℕ → Option (ℕ × ℕ × ℕ × ℕ)
  | [] => none
  | q :: rest =>
    match lastIdxOf q inner with
    | some ji =>
      match pathIdxFromId ps q with
      | some pidx => some (0, ji, q, pidx)
      | none => (sharedScan ps inner rest).map (fun r => (r.1 + 1, r.2))
    | none => (sharedScan ps inner rest).map (fun r => (r.1 + 1, r.2))

/-- Embeds `_indexOnPath(lmid0, lmid1, dst)` of GCA3DRenderer.js (lines
761-809; `_positionOnPath` of GCA2DRenderer.js lines 224-272 is the same
computation): find both landmarks, find a shared path, then return the path
index together with `clamp(i0 + floor((i1 - i0) * dst), 0, n - 1)`.
The pair `(none, none)` models the `[undefined, undefined]` result. -/
def indexOnPath (cfg : GConfig) (lmid0 lmid1 : ℕ) (dst : ℚ) : Option ℕ × Option ℤ :=
  match findLmks lmid0 lmid1 cfg.landmarks none none with
  | (some l0, some l1) =>
    match sharedScan cfg.paths l1.paths l0.paths with
    | some (li, ji, _, pidx) =>
      let i0 := l0.position.getD li 0
      let i1 := l1.position.getD ji 0
      let idx := i0 + ⌊(((i1 - i0 : ℤ) : ℚ)) * dst⌋
      (some pidx, some (clampI idx 0 (((cfg.paths.getD pidx default).n : ℤ) - 1)))
    | none => (none, none)
  | _ => (none, none)

/-- JS indexing of a point array by a possibly negative JS-number index:
`points[v]` is `undefined` for a negative or out-of-range `v`. -/
def jsGetPt (l : List Pt3) (v : ℤ) : Option Pt3 :=
  if v < 0 then none else l[v.toNat]?

/-- The renderer position state mutated by `_updatePosition`:
`_curPath`, `_curPathIdx` and `_roiIdx = [start, end]`.  Components are
`Option` because the source stores whatever `_indexOnPath` returned, which can
be `undefined`. -/
structure PosState where
  curPath : Option ℕ
  curPathIdx : Option ℤ
  roiStart : Option ℤ
  roiEnd : Option ℤ
deriving DecidableEq, Repr

/-- Embeds `_updatePosition(path, pathIdx, roiIdxSrt, roiIdxEnd)` of
GCA3DRenderer.js (lines 843-879).  The three state assignments happen first and
unconditionally; the disc update then dereferences
`config.paths[_curPath].points[_curPathIdx]`, which throws a TypeError when
`_curPath` is undefined or out of range (`pd` undefined) or when the point
lookup yields undefined.  The Bool records whether that dereference throws. -/
def updatePosition (cfg : GConfig) (path : Option ℕ) (pathIdx roiS roiE : Option ℤ) :
    PosState × Bool :=
  let st : PosState := ⟨path, pathIdx, roiS, roiE⟩
  let throws :=
    match path with
    | none => true
    | some pidx =>
      match cfg.paths[pidx]? with
      | none => true
      | some pd =>
        match pathIdx with
        | none => true
        | some pj => (jsGetPt pd.points pj).isNone
  (st, throws)

/-- Embeds `setPosition(...)` of GCA3DRenderer.js (lines 254-261): resolve the
three landmark pairs with `_indexOnPath` and call `_updatePosition`
unconditionally with the components of the results. -/
def setPosition (cfg : GConfig) (pmk0 pmk1 : ℕ) (pdt : ℚ) (smk0 smk1 : ℕ) (sdt : ℚ)
    (emk0 emk1 : ℕ) (edt : ℚ) : PosState × Bool :=
  let p := indexOnPath cfg pmk0 pmk1 pdt
  let rs := indexOnPath cfg smk0 smk1 sdt
  let re := indexOnPath cfg emk0 emk1 edt
  updatePosition cfg p.1 p.2 rs.2 re.2

/-- Embeds the landmark scan of `getPosition` (GCA3DRenderer.js lines 315-341).
State components are the lower and upper enclosing candidates, each an
`Option (table index, occurrence index)`.  For each landmark, `pinp` is the
first occurrence of the queried path in its `paths` list; a landmark with
`position[pinp] <= path_idx` replaces the lower candidate when its table index
is larger, and one with `position[pinp] >= path_idx` replaces the upper
candidate when its table index is smaller. -/
def getPosLoop (pid : ℕ) (pidx : ℤ) : List Landmark → ℕ →
    Option (ℕ × ℕ) → Option (ℕ × ℕ) → Option (ℕ × ℕ) × Option (ℕ × ℕ)
  | [], _, lo, hi => (lo, hi)
  | lmk :: rest, i, lo, hi =>
    match lmk.paths.findIdx? (· = pid) with
    | none => getPosLoop pid pidx rest (i + 1) lo hi
    | some pinp =>
      let pos := lmk.position.getD pinp 0
      let lo' := if pos ≤ pidx then
          match lo with
          | none => some (i, pinp)
          | some q => if i > q.1 then some (i, pinp) else lo
        else lo
      let hi' := if pos ≥ pidx then
          match hi with
          | none => some (i, pinp)
          | some q => if i < q.1 then some (i, pinp) else hi
        else hi
      getPosLoop pid pidx rest (i + 1) lo' hi'

/-- Embeds `getPosition(path, path_idx)` of GCA3DRenderer.js (lines 309-348):
scan for the enclosing landmarks, then return their table indices and the
fraction `(path_idx - p0) / (p1 - p0)`.  The source performs the division with
no special case; `jsDiv` returns `none` exactly when the divisor is zero and
the JS result is not a finite number. -/
def getPosition (cfg : GConfig) (pid : ℕ) (pidx : ℤ) : Option (ℕ × ℕ × Option ℚ) :=
  match getPosLoop pid pidx cfg.landmarks 0 none none with
  | (some lo, some hi) =>
    let p0 := (cfg.landmarks.getD lo.1 default).position.getD lo.2 0
    let p1 := (cfg.landmarks.getD hi.1 default).position.getD hi.2 0
    some (lo.1, hi.1, jsDiv ((pidx : ℚ) - (p0 : ℚ)) ((p1 : ℚ) - (p0 : ℚ)))
  | _ => none

/-- `Number.MAX_VALUE`, the initial best squared distance of `positionToPath`. -/
def MAXVALUE : ℚ := ((2 ^ 1024 - 2 ^ 971 : ℕ) : ℚ)

/-- Embeds `pv.distanceToSquared(pp)`. -/
def dist2 (a b : Pt3) : ℚ :=
  (a.x - b.x) ^ 2 + (a.y - b.y) ^ 2 + (a.z - b.z) ^ 2

/-- The point scan of one path inside `positionToPath` (GCA3DRenderer.js lines
388-396): fold the running best `(path index, point index, squared distance)`
over the points, keeping a strictly closer point. -/
def scanPts (pv : Pt3) (pi : ℕ) : List Pt3 → ℕ → ℕ × ℕ × ℚ → ℕ × ℕ × ℚ
  | [], _, fnd => fnd
  | q :: rest, j, fnd =>
    let d2 := dist2 pv q
    scanPts pv pi rest (j + 1) (if d2 < fnd.2.2 then (pi, j, d2) else fnd)

/-- The path scan of `positionToPath` (lines 386-397).  The source iterates
`pj` from `0` to `path.n - 1`; for a loaded path `points` has exactly `n`
entries, so the scanned points are `points.take n`. -/
def scanPaths (pv : Pt3) : List GPath → ℕ → ℕ × ℕ × ℚ → ℕ × ℕ × ℚ
  | [], _, fnd => fnd
  | p :: rest, i, fnd => scanPaths pv rest (i + 1) (scanPts pv i (p.points.take p.n) 0 fnd)

/-- Embeds `positionToPath(pos, tol)` of GCA3DRenderer.js (lines 383-404;
GCA2DRenderer.js lines 917-939 is the 2D copy of the same logic): brute-force
scan of all path points starting from `[0, 0, Number.MAX_VALUE]`, then the
guard `if (fnd[2] < tol)`.  Note the source compares the squared distance with
`tol` itself, not with `tol * tol`, and only then replaces the third component
by its square root; the embedding keeps the squared distance, on which the
guard and all properties below depend. -/
def positionToPath (cfg : GConfig) (pos : Pt3) (tol : ℚ) : Option (ℕ × ℕ × ℚ) :=
  let fnd := scanPaths pos cfg.paths 0 (0, 0, MAXVALUE)
  if fnd.2.2 < tol then some fnd else none

/-- A per-path domain map, as consumed by `_getObjValue` of GCA2DRenderer.js:
the bounding rectangle `[kol1..lastkl] x [line1..lastln]`, one interval list
per line, the per-line start offsets into the flat value array, and the
values. -/
structure DomainMap where
  kol1 : ℤ
  line1 : ℤ
  lastkl : ℤ
  lastln : ℤ
  intvlines : List (List (ℤ × ℤ))
  lineIdx : List ℤ
  values : List ℚ
deriving DecidableEq, Repr

/-- The interval scan of `_getObjValue` (GCA2DRenderer.js lines 804-813): walk
the intervals of one line, accumulating the flat-array offset of the skipped
intervals, and stop inside the first interval containing `x`. -/
def scanIvs (x : ℤ) : List (ℤ × ℤ) → ℤ → Option ℤ
  | [], _ => none
  | iv :: rest, vidx =>
    if iv.1 ≤ x ∧ x ≤ iv.2 then some (vidx + (x - iv.1))
    else scanIvs x rest (vidx + (iv.2 - iv.1 + 1))

/-- Embeds `_getObjValue(map, x, y)` of GCA2DRenderer.js (lines 790-819):
truncate and offset the coordinates, bounds-check against the rectangle, scan
the intervals of the line, and read the flat value array when inside.  A flat
index outside the value array reads `undefined` in JS, modelled as `none`; the
line accesses `intvlines[y]` and `value_line_indices[y]` are in range for any
well-formed map (the rectangle matches the array lengths), which the theorems
assume. -/
def getObjValue (map : DomainMap) (x y : ℚ) : Option ℚ :=
  let xi := jsTrunc x - map.kol1
  let yi := jsTrunc y - map.line1
  if 0 ≤ yi ∧ yi ≤ map.lastln - map.line1 ∧ 0 ≤ xi ∧ xi ≤ map.lastkl - map.kol1 then
    match scanIvs xi (map.intvlines.getD yi.toNat []) (map.lineIdx.getD yi.toNat 0) with
    | some vidx => if 0 ≤ vidx then map.values[vidx.toNat]? else none
    | none => none
  else none

/-- Embeds JS `name.split(sep)` for `sep = nameSep = '-'`, over char lists. -/
def splitOnDash : List Char → List (List Char)
  | [] => [[]]
  | c :: rest =>
    let r := splitOnDash rest
    if c = '-' then [] :: r
    else
      match r with
      | [] => [[c]]
      | h :: t => (c :: h) :: t

/-- Embeds `tynm.slice(1).join(nameSep)`. -/
def joinDash : List (List Char) → List Char
  | [] => []
  | [s] => s
  | s :: rest => s ++ '-' :: joinDash rest

/-- The name decomposition of `_picker` (GCA3DRenderer.js lines 983-987): split
on the separator; a name with fewer than two components is ignored; with more
than two, everything after the first separator is rejoined as the entity
name. -/
def splitName (nm : List Char) : Option (List Char × List Char) :=
  match splitOnDash nm with
  | p0 :: p1 :: rest => some (p0, joinDash (p1 :: rest))
  | _ => none

/-- `pathNamePrefix` of the source. -/
def pathPfx : List Char := ['p', 'a', 't', 'h']

/-- `landmarkNamePrefix` of the source. -/
def lmPfx : List Char := ['l', 'm']

/-- `markerNamePrefix` of the source. -/
def mmPfx : List Char := ['m', 'm']

/-- `anatomyNamePrefix` of the source. -/
def anaPfx : List Char := ['a', 'n', 'a']

/-- Componentwise `Vector3.add`. -/
def addPt (a b : Pt3) : Pt3 := ⟨a.x + b.x, a.y + b.y, a.z + b.z⟩

/-- Componentwise `Vector3.sub`-style difference, used for barycentric
coordinates. -/
def subPt (a b : Pt3) : Pt3 := ⟨a.x - b.x, a.y - b.y, a.z - b.z⟩

/-- `Vector3.divideScalar`. -/
def divPt (a : Pt3) (c : ℚ) : Pt3 := ⟨a.x / c, a.y / c, a.z / c⟩

/-- `Vector3.dot`. -/
def dotPt (a b : Pt3) : ℚ := a.x * b.x + a.y * b.y + a.z * b.z

/-- Embeds `_baryCoords(t, p)` of GCA3DRenderer.js (lines 591-611): the
barycentric coordinates of `p` in the triangle, or `undefined` (`none`) when
the Gram determinant `d` is not positive, i.e. the triangle is degenerate.
(The source inverts `d` and multiplies; in exact arithmetic that is the
division below.) -/
def baryCoords (t0 t1 t2 p : Pt3) : Option (ℚ × ℚ × ℚ) :=
  let v0 := subPt t1 t0
  let v1 := subPt t2 t0
  let v2 := subPt p t0
  let d00 := dotPt v0 v0
  let d01 := dotPt v0 v1
  let d11 := dotPt v1 v1
  let d20 := dotPt v2 v0
  let d21 := dotPt v2 v1
  let d := d00 * d11 - d01 * d01
  if d > 0 then
    let b1 := (d11 * d20 - d01 * d21) / d
    let b2 := (d00 * d21 - d01 * d20) / d
    some (1 - b1 - b2, b1, b2)
  else none

/-- Embeds `getAnatomyConfig(id)` (GCA3DRenderer.js lines 411-421): first
anatomy surface whose id equals the given one. -/
def getAnatomyConfig (cfg : GConfig) (idc : List Char) : Option AnatSurf :=
  cfg.anatomy.find? (fun a => a.id == idc)

/-- One entry of a raycast hit list, as consumed by `_picker`: the name of the
hit object, the hit point, the face index, and the hit geometry (vertex index
array and flat vertex position array, each possibly absent). -/
structure Hit where
  name : List Char
  point : Pt3
  faceIndex : ℕ
  geomIndex : Option (List ℕ)
  geomPos : Option (List ℚ)
deriving DecidableEq, Repr

/-- The aggregation state of the `_picker` classification loop: the `idx`
record (with `none` for the `-1` sentinels) and the parallel arrays
`cnt`, `objA`, `typA`, `namA`, `posA`, `triA`.  `posA` holds the running sums,
as the source mutates the stored Vector3 with `add`. -/
structure PickAcc where
  idxPth : Option ℕ
  idxMkm : Option ℕ
  idxAna : Option ℕ
  cnt : List ℚ
  objA : List Hit
  typA : List (List Char)
  namA : List (List Char)
  posA : List Pt3
  triA : List ℕ
deriving DecidableEq, Repr

/-- The empty aggregation state at the start of a pick event. -/
def emptyAcc : PickAcc := ⟨none, none, none, [], [], [], [], [], []⟩

/-- The pushes performed when a new entity is first seen. -/
def pushEntry (acc : PickAcc) (h : Hit) (typ nam : List Char) (tri : ℕ) : PickAcc :=
  { acc with
    cnt := acc.cnt ++ [1]
    objA := acc.objA ++ [h]
    typA := acc.typA ++ [typ]
    namA := acc.namA ++ [nam]
    posA := acc.posA ++ [h.point]
    triA := acc.triA ++ [tri] }

/-- One iteration of the `_picker` classification loop (GCA3DRenderer.js lines
979-1029).  Landmarks and markers share one slot; note that in the
landmark/marker branch the source guards and updates the accumulation arrays
with `idx.pth` (the path slot), exactly as written on lines 1011-1014, so the
guard compares the path entry and can never hold for a landmark or marker
hit. -/
def classifyHit (acc : PickAcc) (h : Hit) : PickAcc :=
  if h.name = [] then acc
  else
    match splitName h.name with
    | none => acc
    | some (ty, nm) =>
      if ty = pathPfx then
        match acc.idxPth with
        | none => { pushEntry acc h ty nm 0 with idxPth := some acc.objA.length }
        | some k =>
          if acc.namA.getD k [] = nm then
            { acc with
              cnt := acc.cnt.set k (acc.cnt.getD k 0 + 1)
              posA := acc.posA.set k (addPt (acc.posA.getD k default) h.point) }
          else acc
      else if ty = lmPfx ∨ ty = mmPfx then
        match acc.idxMkm with
        | none => { pushEntry acc h ty nm 0 with idxMkm := some acc.objA.length }
        | some _ =>
          match acc.idxPth with
          | none => acc
          | some k =>
            if acc.typA.getD k [] = ty ∧ acc.namA.getD k [] = nm then
              { acc with
                cnt := acc.cnt.set k (acc.cnt.getD k 0 + 1)
                posA := acc.posA.set k (addPt (acc.posA.getD k default) h.point) }
            else acc
      else if ty = anaPfx then
        match acc.idxAna with
        | none => { pushEntry acc h ty nm h.faceIndex with idxAna := some acc.objA.length }
        | some _ => acc
      else acc

/-- The full classification loop of `_picker` over the hit list. -/
def classify : List Hit → PickAcc → PickAcc
  | [], acc => acc
  | h :: rest, acc => classify rest (classifyHit acc h)

/-- The per-entity resolution step of `_picker` (GCA3DRenderer.js lines
1031-1061) for entry `i`.  Outer `none` models a thrown TypeError; the inner
`Option Pt3` is the emitted position (`none` when the source would emit
`undefined`).  For an anatomy entry with complete mapping data the source
builds the triangle, reads the three mapping values as `an.mapping[ti[i]]`
(`i` being the entry index, as written on line 1047), computes barycentric
weights - dereferencing the result without a degeneracy check - floors,
clamps to the current path and replaces the position by the path point.
Missing vertex data defaults to 0 through the THREE.Vector3 constructor. -/
def resolveOne (cfg : GConfig) (curPath : ℕ) (i : ℕ) (h : Hit) (ty nm : List Char)
    (pos : Pt3) (tri : ℕ) (c : ℚ) : Option (Option Pt3) :=
  if ty = anaPfx then
    match getAnatomyConfig cfg nm with
    | some an =>
      match an.mapping, h.geomIndex, h.geomPos with
      | some mapv, some gidx, some gpos =>
        let t := tri * 3
        let tvOf : Option ℕ → Pt3 := fun oj =>
          match oj with
          | none => default
          | some tj => ⟨gpos.getD (3 * tj) 0, gpos.getD (3 * tj + 1) 0,
                        gpos.getD (3 * tj + 2) 0⟩
        let ti : List (Option ℕ) := [gidx[t]?, gidx[t + 1]?, gidx[t + 2]?]
        let tv0 := tvOf (ti.getD 0 none)
        let tv1 := tvOf (ti.getD 1 none)
        let tv2 := tvOf (ti.getD 2 none)
        let mpv : Option ℚ :=
          match ti[i]? with
          | some (some tj) => mapv[tj]?
          | _ => none
        match baryCoords tv0 tv1 tv2 pos with
        | none => none
        | some w =>
          let pth := cfg.paths.getD curPath default
          let piv : Option ℤ :=
            match mpv with
            | some m => some ⌊m * w.1 + m * w.2.1 + m * w.2.2⌋
            | none => none
          some ((piv.map (fun v => clampI v 0 ((pth.n : ℤ) - 1))).bind
            (fun v => jsGetPt pth.points v))
      | _, _, _ => some (some pos)
    | none => some (some pos)
  else some (some (divPt pos c))

/-- The resolution loop of `_picker` over all classified entries; an exception
in any entry aborts the whole event (outer `none`), otherwise the typed, named,
position-resolved entries are what the client callback receives. -/
def resolveLists (cfg : GConfig) (curPath : ℕ) :
    ℕ → List Hit → List (List Char) → List (List Char) → List Pt3 → List ℚ → List ℕ →
    Option (List (List Char × List Char × Option Pt3))
  | i, h :: hs, ty :: tys, nm :: nms, p :: ps, c :: cs, tr :: trs =>
    match resolveOne cfg curPath i h ty nm p tr c with
    | none => none
    | some e =>
      match resolveLists cfg curPath (i + 1) hs tys nms ps cs trs with
      | none => none
      | some rest => some ((ty, nm, e) :: rest)
  | _, _, _, _, _, _, _ => some []

/-- Embeds `_picker` (GCA3DRenderer.js lines 968-1066) applied to the hit list
of one pick event, given the current path index: classification and
aggregation, then per-entry resolution.  `none` models a thrown TypeError (no
callback); the empty list models the silent no-op when nothing was hit. -/
def picker (cfg : GConfig) (curPath : ℕ) (hitlist : List Hit) :
    Option (List (List Char × List Char × Option Pt3)) :=
  let acc := classify hitlist emptyAcc
  resolveLists cfg curPath 0 acc.objA acc.typA acc.namA acc.posA acc.cnt acc.triA

/-- Embeds `landmarkFromAnatID(id)` of the class-based GCA2DRenderer.js (lines
1860-1871): the first landmark whose `anatomy[0].id` equals the given id. -/
def landmarkFromAnatID (cfg : GConfig) (aid : ℕ) : Option Landmark :=
  cfg.landmarks.find? (fun l => l.anat0 == aid)

/-- JS numeric coercion of a landmark `position` array, as exercised by
`Number(lmp[0])` and the subtraction `lmp[1] - lmp[0]` of
`mapIntervalToMidline`: an empty array coerces to 0, a one-element array to
its element, and a longer array to NaN (`none`). -/
def toNum (l : List ℤ) : Option ℚ :=
  match l with
  | [] => some 0
  | [x] => some (x : ℚ)
  | _ => none

/-- NaN-propagating addition. -/
def jsAdd (a b : Option ℚ) : Option ℚ :=
  match a, b with
  | some x, some y => some (x + y)
  | _, _ => none

/-- NaN-propagating subtraction. -/
def jsSub (a b : Option ℚ) : Option ℚ :=
  match a, b with
  | some x, some y => some (x - y)
  | _, _ => none

/-- NaN-propagating multiplication. -/
def jsMul (a b : Option ℚ) : Option ℚ :=
  match a, b with
  | some x, some y => some (x * y)
  | _, _ => none

/-- NaN-propagating `Math.floor`. -/
def jsFloorO (a : Option ℚ) : Option ℚ :=
  a.map (fun q => ((⌊q⌋ : ℤ) : ℚ))

/-- Embeds `mapIntervalToMidline(lmk0, lmk1, f0, lmk2, lmk3, f1)` of the
class-based GCA2DRenderer.js (lines 1762-1789): look the four landmarks up by
anatomy id, require each consecutive pair to agree on `paths[0]`, then return
`[l.paths[0], Number(lmp[0]) + floor(f0 * (lmp[1] - lmp[0])),
Number(lmp[2]) + floor(f1 * (lmp[3] - lmp[2]))]` with no clamping.  The
`lmp[k]` are whole position arrays, coerced by the JS arithmetic as in
`toNum`. -/
def mapIntervalToMidline (cfg : GConfig) (a0 a1 : ℕ) (f0 : ℚ) (a2 a3 : ℕ) (f1 : ℚ) :
    Option (Option ℕ × Option ℚ × Option ℚ) :=
  match landmarkFromAnatID cfg a0, landmarkFromAnatID cfg a1,
        landmarkFromAnatID cfg a2, landmarkFromAnatID cfg a3 with
  | some l0, some l1, some l2, some l3 =>
    if l0.paths.head? = l1.paths.head? ∧ l1.paths.head? = l2.paths.head? ∧
        l2.paths.head? = l3.paths.head? then
      some (l3.paths.head?,
        jsAdd (toNum l0.position)
          (jsFloorO (jsMul (some f0) (jsSub (toNum l1.position) (toNum l0.position)))),
        jsAdd (toNum l2.position)
          (jsFloorO (jsMul (some f1) (jsSub (toNum l3.position) (toNum l2.position)))))
    else none
  | _, _, _, _ => none

/-- Specification-side description of the lower-candidate scan of
`getPosition`: the last landmark (table order) occurring on the path with
position at most `pidx`, starting from a given candidate.  The loop lemmas
identify `getPosLoop` with this together with `firstGE`. -/
def lastLE (pid : ℕ) (pidx : ℤ) : List Landmark → ℕ → Option (ℕ × ℕ) → Option (ℕ × ℕ)
  | [], _, best => best
  | lmk :: rest, i, best =>
    match lmk.paths.findIdx? (· = pid) with
    | none => lastLE pid pidx rest (i + 1) best
    | some pinp =>
      if lmk.position.getD pinp 0 ≤ pidx then lastLE pid pidx rest (i + 1) (some (i, pinp))
      else lastLE pid pidx rest (i + 1) best

/-- Specification-side description of the upper-candidate scan of
`getPosition`: the first landmark (table order) occurring on the path with
position at least `pidx`. -/
def firstGE (pid : ℕ) (pidx : ℤ) : List Landmark → ℕ → Option (ℕ × ℕ) → Option (ℕ × ℕ)
  | [], _, best => best
  | lmk :: rest, i, best =>
    match lmk.paths.findIdx? (· = pid) with
    | none => firstGE pid pidx rest (i + 1) best
    | some pinp =>
      if lmk.position.getD pinp 0 ≥ pidx ∧ best = none then
        firstGE pid pidx rest (i + 1) (some (i, pinp))
      else firstGE pid pidx rest (i + 1) best

/-- A sample landmark: id 1, anatomy id 20, on path 0 at position 2. -/
def lmkA : Landmark := ⟨1, 20, [0], [2]⟩

/-- A sample landmark: id 2, anatomy id 21, on path 0 at position 8. -/
def lmkB : Landmark := ⟨2, 21, [0], [8]⟩

/-- The concrete scenario of spec section 8: one path with 10 points
(indices 0..9), landmark 1 at position 2 and landmark 2 at position 8, both on
path 0. -/
def sampleCfg : GConfig :=
  { paths := [⟨0, 10, [⟨0, 0, 0⟩, ⟨1, 0, 0⟩, ⟨2, 0, 0⟩, ⟨3, 0, 0⟩, ⟨4, 0, 0⟩,
                       ⟨5, 0, 0⟩, ⟨6, 0, 0⟩, ⟨7, 0, 0⟩, ⟨8, 0, 0⟩, ⟨9, 0, 0⟩]⟩]
    landmarks := [lmkA, lmkB]
    anatomy := [] }

/-- A configuration in which landmark 1 occurs only on path 0 and landmark 2
only on path 1, so the two share no path. -/
def disjCfg : GConfig :=
  { paths := [⟨0, 2, [⟨0, 0, 0⟩, ⟨1, 0, 0⟩]⟩, ⟨1, 2, [⟨5, 0, 0⟩, ⟨6, 0, 0⟩]⟩]
    landmarks := [⟨1, 20, [0], [0]⟩, ⟨2, 21, [1], [1]⟩]
    anatomy := [] }

/-- A configuration for pick events: one current path with 10 points and one
anatomy surface named `g1` whose vertex mapping assigns path index 0 to vertex
0 and path index 9 to vertices 1 and 2. -/
def pickCfg : GConfig :=
  { paths := [⟨0, 10, [⟨10, 0, 0⟩, ⟨11, 0, 0⟩, ⟨12, 0, 0⟩, ⟨13, 0, 0⟩, ⟨14, 0, 0⟩,
                       ⟨15, 0, 0⟩, ⟨16, 0, 0⟩, ⟨17, 0, 0⟩, ⟨18, 0, 0⟩, ⟨19, 0, 0⟩]⟩]
    landmarks := []
    anatomy := [⟨['g', '1'], some [0, 9, 9]⟩] }

/-- A hit on the path object named `path-1` at the given point. -/
def pHit (p : Pt3) : Hit := ⟨['p', 'a', 't', 'h', '-', '1'], p, 0, none, none⟩

/-- A hit on the landmark object named `lm-7` at the given point. -/
def lHit (p : Pt3) : Hit := ⟨['l', 'm', '-', '7'], p, 0, none, none⟩

/-- A hit on the anatomy surface `ana-g1` whose hit triangle is degenerate:
the three triangle vertices coincide, so the Gram determinant is zero and
`_baryCoords` returns undefined. -/
def aHitDegen : Hit :=
  ⟨['a', 'n', 'a', '-', 'g', '1'], ⟨0, 0, 0⟩, 0, some [0, 1, 2],
   some [5, 5, 5, 5, 5, 5, 5, 5, 5]⟩

/-- A hit on the anatomy surface `ana-g1` exactly at vertex 1 of a proper
triangle (barycentric weights (0, 1, 0)); the per-vertex mapping values of the
triangle are 0, 9, 9, so barycentric interpolation would give path index 9. -/
def aHitVertex1 : Hit :=
  ⟨['a', 'n', 'a', '-', 'g', '1'], ⟨1, 0, 0⟩, 0, some [0, 1, 2],
   some [0, 0, 0, 1, 0, 0, 0, 1, 0]⟩

/-- A sample domain map: rectangle `[0..4] x [0..2]`, with line 0 covering
columns 0-1 and 3-4, line 1 covering 0-4 and line 2 covering only column 2. -/
def sampleMap : DomainMap :=
  { kol1 := 0
    line1 := 0
    lastkl := 4
    lastln := 2
    intvlines := [[(0, 1), (3, 4)], [(0, 4)], [(2, 2)]]
    lineIdx := [0, 4, 9]
    values := [1, 2, 3, 4, 5, 6, 7, 8, 9, 10] }

/-
The Batteries rational arithmetic definitions are marked irreducible, which
blocks the evaluation of concrete witnesses by `decide`; the kernel itself
reduces them fine, so they are restored to semireducible for this development.
-/
set_option allowUnsafeReducibility true
attribute [semireducible] Rat.mul Rat.add Rat.sub Rat.inv
set_option maxRecDepth 8192

lemma getD_of_getElem? {α : Type} {l : List α} {n : ℕ} {a : α} (d : α)
    (h : l[n]? = some a) : l.getD n d = a := by
  simp [List.getD, h]

lemma mem_of_getElem?' {α : Type} {l : List α} {n : ℕ} {a : α}
    (h : l[n]? = some a) : a ∈ l := by
  induction l generalizing n with
  | nil => simp at h
  | cons x xs ih =>
    cases n with
    | zero => simp at h; simp [h]
    | succ m => simp only [List.getElem?_cons_succ] at h; exact List.mem_cons_of_mem _ (ih h)

lemma getD_append_len {α : Type} (xs : List α) (a : α) (ys : List α) (d : α) :
    (xs ++ a :: ys).getD xs.length d = a := by
  induction xs with
  | nil => rfl
  | cons x xs ih => simpa [List.getD] using ih

lemma clampI_bounds (v mn mx : ℤ) (h : mn ≤ mx) :
    mn ≤ clampI v mn mx ∧ clampI v mn mx ≤ mx := by
  unfold clampI
  split_ifs <;> omega

lemma clampI_eq_self (v mn mx : ℤ) (h0 : mn ≤ v) (h1 : v ≤ mx) :
    clampI v mn mx = v := by
  unfold clampI
  split_ifs <;> omega

lemma findLmks_both (lmid0 lmid1 : ℕ) (ls : List Landmark) (x y : Landmark) :
    findLmks lmid0 lmid1 ls (some x) (some y) = (some x, some y) := by
  cases ls <;> simp [findLmks]

lemma findLmks_cons (lmid0 lmid1 : ℕ) (x : Landmark) (xs : List Landmark)
    (m0 m1 : Option Landmark) :
    findLmks lmid0 lmid1 (x :: xs) m0 m1 =
      if m0.isSome ∧ m1.isSome then (m0, m1)
      else findLmks lmid0 lmid1 xs
        (if x.id = lmid0 then some x else m0)
        (if x.id = lmid1 then some x else m1) := rfl

lemma findLmks_skipAll (lmid0 lmid1 : ℕ) (xs : List Landmark)
    (h : ∀ l ∈ xs, l.id ≠ lmid0 ∧ l.id ≠ lmid1) (ys : List Landmark)
    (m0 m1 : Option Landmark) :
    findLmks lmid0 lmid1 (xs ++ ys) m0 m1 = findLmks lmid0 lmid1 ys m0 m1 := by
  induction xs generalizing m0 m1 with
  | nil => rfl
  | cons x xs ih =>
    have hx := h x (List.mem_cons_self x xs)
    by_cases h01 : m0.isSome ∧ m1.isSome
    · obtain ⟨a, ha⟩ := Option.isSome_iff_exists.mp h01.1
      obtain ⟨b, hb⟩ := Option.isSome_iff_exists.mp h01.2
      subst ha hb
      rw [List.cons_append]
      rw [show findLmks lmid0 lmid1 (x :: (xs ++ ys)) (some a) (some b) =
            (some a, some b) from by simp [findLmks]]
      rw [findLmks_both]
    · rw [List.cons_append, findLmks_cons, if_neg h01, if_neg hx.1, if_neg hx.2]
      exact ih (fun l hl => h l (List.mem_cons_of_mem _ hl)) m0 m1

lemma findLmks_prop (lmid0 lmid1 : ℕ) (big : List Landmark) :
    ∀ (ls : List Landmark) (m0 m1 : Option Landmark),
    (∀ l ∈ ls, l ∈ big) →
    (∀ l, m0 = some l → l.id = lmid0 ∧ l ∈ big) →
    (∀ l, m1 = some l → l.id = lmid1 ∧ l ∈ big) →
    (∀ l, (findLmks lmid0 lmid1 ls m0 m1).1 = some l → l.id = lmid0 ∧ l ∈ big) ∧
    (∀ l, (findLmks lmid0 lmid1 ls m0 m1).2 = some l → l.id = lmid1 ∧ l ∈ big)
  | [], m0, m1, _, h0, h1 => ⟨h0, h1⟩
  | x :: xs, m0, m1, hls, h0, h1 => by
    rw [findLmks_cons]
    by_cases h01 : m0.isSome ∧ m1.isSome
    · rw [if_pos h01]
      exact ⟨h0, h1⟩
    · rw [if_neg h01]
      refine findLmks_prop lmid0 lmid1 big xs _ _
        (fun l hl => hls l (List.mem_cons_of_mem _ hl)) ?_ ?_
      · intro l hl
        by_cases hc : x.id = lmid0
        · rw [if_pos hc] at hl
          cases hl
          exact ⟨hc, hls x (List.mem_cons_self x xs)⟩
        · rw [if_neg hc] at hl
          exact h0 l hl
      · intro l hl
        by_cases hc : x.id = lmid1
        · rw [if_pos hc] at hl
          cases hl
          exact ⟨hc, hls x (List.mem_cons_self x xs)⟩
        · rw [if_neg hc] at hl
          exact h1 l hl

lemma findLmks_isSome (lmid0 lmid1 : ℕ) :
    ∀ (ls : List Landmark) (m0 m1 : Option Landmark),
    (m0.isSome ∨ ∃ l ∈ ls, l.id = lmid0) →
    (m1.isSome ∨ ∃ l ∈ ls, l.id = lmid1) →
    (findLmks lmid0 lmid1 ls m0 m1).1.isSome ∧ (findLmks lmid0 lmid1 ls m0 m1).2.isSome
  | [], m0, m1, h0, h1 => by
    refine ⟨?_, ?_⟩
    · rcases h0 with h | ⟨l, hl, _⟩
      · exact h
      · simp at hl
    · rcases h1 with h | ⟨l, hl, _⟩
      · exact h
      · simp at hl
  | x :: xs, m0, m1, h0, h1 => by
    rw [findLmks_cons]
    by_cases h01 : m0.isSome ∧ m1.isSome
    · rw [if_pos h01]
      exact h01
    · rw [if_neg h01]
      refine findLmks_isSome lmid0 lmid1 xs _ _ ?_ ?_
      · by_cases hc : x.id = lmid0
        · left; rw [if_pos hc]; rfl
        · rcases h0 with h | ⟨l, hl, hid⟩
          · left; rw [if_neg hc]; exact h
          · rcases List.mem_cons.mp hl with rfl | hl
            · exact absurd hid hc
            · right; exact ⟨l, hl, hid⟩
      · by_cases hc : x.id = lmid1
        · left; rw [if_pos hc]; rfl
        · rcases h1 with h | ⟨l, hl, hid⟩
          · left; rw [if_neg hc]; exact h
          · rcases List.mem_cons.mp hl with rfl | hl
            · exact absurd hid hc
            · right; exact ⟨l, hl, hid⟩

lemma lastIdxOf_isSome_iff (p : ℕ) (l : List ℕ) : (lastIdxOf p l).isSome ↔ p ∈ l := by
  induction l with
  | nil => simp [lastIdxOf]
  | cons q rest ih =>
    cases hr : lastIdxOf p rest with
    | some j =>
      have hp : p ∈ rest := ih.mp (by simp [hr])
      simp [lastIdxOf, hr, List.mem_cons, hp]
    | none =>
      have hnr : p ∉ rest := fun hm => by
        have := ih.mpr hm
        rw [hr] at this
        simp at this
      by_cases hq : q = p
      · simp [lastIdxOf, hr, hq]
      · simp only [lastIdxOf, hr, Option.map_none', if_neg hq, Option.isSome_none,
          Bool.false_eq_true, false_iff]
        intro hm
        rcases List.mem_cons.mp hm with hcm | h2
        · exact hq hcm.symm
        · exact hnr h2

lemma lastIdxOf_get (p : ℕ) (l : List ℕ) (j : ℕ) (h : lastIdxOf p l = some j) :
    l[j]? = some p := by
  induction l generalizing j with
  | nil => simp [lastIdxOf] at h
  | cons q rest ih =>
    cases hr : lastIdxOf p rest with
    | some j0 =>
      rw [lastIdxOf, hr] at h
      simp only [Option.map_some'] at h
      cases h
      simpa using ih j0 hr
    | none =>
      rw [lastIdxOf, hr] at h
      simp only [Option.map_none'] at h
      by_cases hq : q = p
      · rw [if_pos hq] at h
        cases h
        simp [hq]
      · rw [if_neg hq] at h
        cases h

lemma sharedScan_get (ps : List GPath) (inner : List ℕ) :
    ∀ (outer : List ℕ) (li ji q pidx : ℕ),
    sharedScan ps inner outer = some (li, ji, q, pidx) →
    outer[li]? = some q ∧ lastIdxOf q inner = some ji ∧ pathIdxFromId ps q = some pidx
  | [], li, ji, q, pidx, h => by simp [sharedScan] at h
  | p0 :: rest, li, ji, q, pidx, h => by
    rw [sharedScan] at h
    cases hl : lastIdxOf p0 inner with
    | some ji0 =>
      rw [hl] at h
      cases hp : pathIdxFromId ps p0 with
      | some pidx0 =>
        rw [hp] at h
        cases h
        exact ⟨by simp, hl, hp⟩
      | none =>
        rw [hp] at h
        cases hs : sharedScan ps inner rest with
        | some r =>
          obtain ⟨r1, r2, r3, r4⟩ := r
          rw [hs] at h
          simp only [Option.map_some', Option.some.injEq, Prod.mk.injEq] at h
          obtain ⟨h1, h2, h3, h4⟩ := h
          subst h2 h3 h4
          have hrec := sharedScan_get ps inner rest r1 r2 r3 r4 hs
          refine ⟨?_, hrec.2⟩
          rw [← h1]
          simpa using hrec.1
        | none => rw [hs] at h; simp at h
    | none =>
      rw [hl] at h
      cases hs : sharedScan ps inner rest with
      | some r =>
        obtain ⟨r1, r2, r3, r4⟩ := r
        rw [hs] at h
        simp only [Option.map_some', Option.some.injEq, Prod.mk.injEq] at h
        obtain ⟨h1, h2, h3, h4⟩ := h
        subst h2 h3 h4
        have hrec := sharedScan_get ps inner rest r1 r2 r3 r4 hs
        refine ⟨?_, hrec.2⟩
        rw [← h1]
        simpa using hrec.1
      | none => rw [hs] at h; simp at h

lemma sharedScan_isSome (ps : List GPath) (inner : List ℕ) :
    ∀ (outer : List ℕ),
    (∃ q, q ∈ outer ∧ q ∈ inner ∧ (pathIdxFromId ps q).isSome) →
    (sharedScan ps inner outer).isSome
  | [], h => by
    obtain ⟨q, hq, _, _⟩ := h
    simp at hq
  | p0 :: rest, h => by
    rw [sharedScan]
    cases hl : lastIdxOf p0 inner with
    | some ji0 =>
      cases hp : pathIdxFromId ps p0 with
      | some pidx0 => simp
      | none =>
        obtain ⟨q, hq, hqi, hqs⟩ := h
        rcases List.mem_cons.mp hq with rfl | hq
        · rw [hp] at hqs; simp at hqs
        · have := sharedScan_isSome ps inner rest ⟨q, hq, hqi, hqs⟩
          obtain ⟨r, hr⟩ := Option.isSome_iff_exists.mp this
          simp [hr]
    | none =>
      obtain ⟨q, hq, hqi, hqs⟩ := h
      rcases List.mem_cons.mp hq with rfl | hq
      · have := (lastIdxOf_isSome_iff q inner).mpr hqi
        rw [hl] at this
        simp at this
      · have := sharedScan_isSome ps inner rest ⟨q, hq, hqi, hqs⟩
        obtain ⟨r, hr⟩ := Option.isSome_iff_exists.mp this
        simp [hr]

lemma sharedScan_none_of_disjoint (ps : List GPath) (inner : List ℕ) :
    ∀ (outer : List ℕ), (∀ q ∈ outer, q ∉ inner) →
    sharedScan ps inner outer = none
  | [], _ => rfl
  | p0 :: rest, h => by
    rw [sharedScan]
    have hni : p0 ∉ inner := h p0 (List.mem_cons_self p0 rest)
    have hl : lastIdxOf p0 inner = none := by
      cases hl0 : lastIdxOf p0 inner with
      | none => rfl
      | some j =>
        exact absurd ((lastIdxOf_isSome_iff p0 inner).mp (by simp [hl0])) hni
    rw [hl, sharedScan_none_of_disjoint ps inner rest
      (fun q hq => h q (List.mem_cons_of_mem _ hq))]
    rfl

lemma pathIdxFromId_get (pid : ℕ) :
    ∀ (ps : List GPath) (k : ℕ), pathIdxFromId ps pid = some k →
    ∃ p, ps[k]? = some p ∧ p.id = pid
  | [], k, h => by simp [pathIdxFromId] at h
  | p :: rest, k, h => by
    rw [pathIdxFromId] at h
    by_cases hc : p.id = pid
    · rw [if_pos hc] at h
      cases h
      exact ⟨p, by simp, hc⟩
    · rw [if_neg hc] at h
      cases hr : pathIdxFromId rest pid with
      | some k0 =>
        rw [hr] at h
        simp only [Option.map_some'] at h
        cases h
        obtain ⟨q, hq1, hq2⟩ := pathIdxFromId_get pid rest k0 hr
        exact ⟨q, by simpa using hq1, hq2⟩
      | none => rw [hr] at h; simp at h

lemma getPosLoop_eq (pid : ℕ) (pidx : ℤ) :
    ∀ (ls : List Landmark) (i : ℕ) (lo hi : Option (ℕ × ℕ)),
    (∀ q, lo = some q → q.1 < i) → (∀ q, hi = some q → q.1 < i) →
    getPosLoop pid pidx ls i lo hi = (lastLE pid pidx ls i lo, firstGE pid pidx ls i hi)
  | [], i, lo, hi, _, _ => rfl
  | lmk :: rest, i, lo, hi, hlo, hhi => by
    rw [getPosLoop, lastLE, firstGE]
    cases hf : lmk.paths.findIdx? (· = pid) with
    | none =>
      exact getPosLoop_eq pid pidx rest (i + 1) lo hi
        (fun q hq => Nat.lt_succ_of_lt (hlo q hq))
        (fun q hq => Nat.lt_succ_of_lt (hhi q hq))
    | some pinp =>
      have hnext : ∀ (lo2 hi2 : Option (ℕ × ℕ)),
          (∀ q, lo2 = some q → q.1 < i + 1) → (∀ q, hi2 = some q → q.1 < i + 1) →
          getPosLoop pid pidx rest (i + 1) lo2 hi2 =
            (lastLE pid pidx rest (i + 1) lo2, firstGE pid pidx rest (i + 1) hi2) :=
        fun lo2 hi2 => getPosLoop_eq pid pidx rest (i + 1) lo2 hi2
      rcases lo with _ | a <;> rcases hi with _ | b
      · by_cases hle : lmk.position.getD pinp 0 ≤ pidx <;>
          by_cases hge : lmk.position.getD pinp 0 ≥ pidx <;>
          simp only [hle, hge, if_true, if_false, ite_true, ite_false, and_true,
            if_pos, if_neg, not_false_iff, true_and, and_self, eq_self_iff_true] <;>
          first
          | exact hnext _ _ (fun q hq => by cases hq; omega)
              (fun q hq => by cases hq; omega)
          | exact hnext _ _ (fun q hq => by cases hq; omega) (fun q hq => by cases hq)
          | exact hnext _ _ (fun q hq => by cases hq) (fun q hq => by cases hq; omega)
          | exact hnext _ _ (fun q hq => by cases hq) (fun q hq => by cases hq)
      · have hb : b.1 < i := hhi b rfl
        have hb' : ¬ i < b.1 := by omega
        by_cases hle : lmk.position.getD pinp 0 ≤ pidx <;>
          by_cases hge : lmk.position.getD pinp 0 ≥ pidx <;>
          simp only [hle, hge, hb', if_true, if_false, ite_true, ite_false,
            and_false, and_true, false_and, reduceCtorEq, if_pos, if_neg,
            not_false_iff, gt_iff_lt] <;>
          first
          | exact hnext _ _ (fun q hq => by cases hq; omega)
              (fun q hq => by cases hq; exact Nat.lt_succ_of_lt hb)
          | exact hnext _ _ (fun q hq => by cases hq)
              (fun q hq => by cases hq; exact Nat.lt_succ_of_lt hb)
      · have ha : a.1 < i := hlo a rfl
        by_cases hle : lmk.position.getD pinp 0 ≤ pidx <;>
          by_cases hge : lmk.position.getD pinp 0 ≥ pidx <;>
          simp only [hle, hge, ha, if_true, if_false, ite_true, ite_false,
            and_true, true_and, and_self, if_pos, if_neg, not_false_iff, gt_iff_lt] <;>
          first
          | exact hnext _ _ (fun q hq => by cases hq; omega)
              (fun q hq => by cases hq; omega)
          | exact hnext _ _ (fun q hq => by cases hq; exact Nat.lt_succ_of_lt ha)
              (fun q hq => by cases hq; omega)
          | exact hnext _ _ (fun q hq => by cases hq; omega)
              (fun q hq => by cases hq)
          | exact hnext _ _ (fun q hq => by cases hq; exact Nat.lt_succ_of_lt ha)
              (fun q hq => by cases hq)
      · have ha : a.1 < i := hlo a rfl
        have hb : b.1 < i := hhi b rfl
        have hb' : ¬ i < b.1 := by omega
        by_cases hle : lmk.position.getD pinp 0 ≤ pidx <;>
          by_cases hge : lmk.position.getD pinp 0 ≥ pidx <;>
          simp only [hle, hge, ha, hb', if_true, if_false, ite_true, ite_false,
            and_false, and_true, false_and, reduceCtorEq, if_pos, if_neg,
            not_false_iff, gt_iff_lt] <;>
          first
          | exact hnext _ _ (fun q hq => by cases hq; omega)
              (fun q hq => by cases hq; exact Nat.lt_succ_of_lt hb)
          | exact hnext _ _ (fun q hq => by cases hq; exact Nat.lt_succ_of_lt ha)
              (fun q hq => by cases hq; exact Nat.lt_succ_of_lt hb)

lemma lastLE_append (pid : ℕ) (pidx : ℤ) (xs : List Landmark) :
    ∀ (ys : List Landmark) (i : ℕ) (best : Option (ℕ × ℕ)),
    lastLE pid pidx (xs ++ ys) i best =
      lastLE pid pidx ys (i + xs.length) (lastLE pid pidx xs i best) := by
  induction xs with
  | nil => intro ys i best; simp [lastLE]
  | cons x xs ih =>
    intro ys i best
    rw [List.cons_append, lastLE, lastLE]
    simp only [List.length_cons]
    rw [show i + (xs.length + 1) = (i + 1) + xs.length from by omega]
    cases hf : x.paths.findIdx? (· = pid) with
    | none => exact ih ys (i + 1) best
    | some pinp =>
      by_cases hle : x.position.getD pinp 0 ≤ pidx
      · simp only [if_pos hle]
        exact ih ys (i + 1) (some (i, pinp))
      · simp only [if_neg hle]
        exact ih ys (i + 1) best

lemma lastLE_nocond (pid : ℕ) (pidx : ℤ) :
    ∀ (ls : List Landmark) (i : ℕ) (best : Option (ℕ × ℕ)),
    (∀ l ∈ ls, ∀ j, l.paths.findIdx? (· = pid) = some j →
      ¬(l.position.getD j 0 ≤ pidx)) →
    lastLE pid pidx ls i best = best
  | [], _, _, _ => rfl
  | lmk :: rest, i, best, h => by
    rw [lastLE]
    cases hf : lmk.paths.findIdx? (· = pid) with
    | none =>
      exact lastLE_nocond pid pidx rest (i + 1) best
        (fun l hl => h l (List.mem_cons_of_mem _ hl))
    | some pinp =>
      simp only [if_neg (h lmk (List.mem_cons_self lmk rest) pinp hf)]
      exact lastLE_nocond pid pidx rest (i + 1) best
        (fun l hl => h l (List.mem_cons_of_mem _ hl))

lemma firstGE_append (pid : ℕ) (pidx : ℤ) (xs : List Landmark) :
    ∀ (ys : List Landmark) (i : ℕ) (best : Option (ℕ × ℕ)),
    firstGE pid pidx (xs ++ ys) i best =
      firstGE pid pidx ys (i + xs.length) (firstGE pid pidx xs i best) := by
  induction xs with
  | nil => intro ys i best; simp [firstGE]
  | cons x xs ih =>
    intro ys i best
    rw [List.cons_append, firstGE, firstGE]
    simp only [List.length_cons]
    rw [show i + (xs.length + 1) = (i + 1) + xs.length from by omega]
    cases hf : x.paths.findIdx? (· = pid) with
    | none => exact ih ys (i + 1) best
    | some pinp =>
      by_cases hc : x.position.getD pinp 0 ≥ pidx ∧ best = none
      · simp only [if_pos hc]
        exact ih ys (i + 1) (some (i, pinp))
      · simp only [if_neg hc]
        exact ih ys (i + 1) best

lemma firstGE_nocond (pid : ℕ) (pidx : ℤ) :
    ∀ (ls : List Landmark) (i : ℕ) (best : Option (ℕ × ℕ)),
    (∀ l ∈ ls, ∀ j, l.paths.findIdx? (· = pid) = some j →
      ¬(l.position.getD j 0 ≥ pidx)) →
    firstGE pid pidx ls i best = best
  | [], _, _, _ => rfl
  | lmk :: rest, i, best, h => by
    rw [firstGE]
    cases hf : lmk.paths.findIdx? (· = pid) with
    | none =>
      exact firstGE_nocond pid pidx rest (i + 1) best
        (fun l hl => h l (List.mem_cons_of_mem _ hl))
    | some pinp =>
      simp only [if_neg (fun hc => (h lmk (List.mem_cons_self lmk rest) pinp hf) hc.1 :
        ¬(lmk.position.getD pinp 0 ≥ pidx ∧ best = none))]
      exact firstGE_nocond pid pidx rest (i + 1) best
        (fun l hl => h l (List.mem_cons_of_mem _ hl))

lemma firstGE_some (pid : ℕ) (pidx : ℤ) :
    ∀ (ls : List Landmark) (i : ℕ) (q : ℕ × ℕ),
    firstGE pid pidx ls i (some q) = some q
  | [], _, _ => rfl
  | lmk :: rest, i, q => by
    rw [firstGE]
    cases hf : lmk.paths.findIdx? (· = pid) with
    | none => exact firstGE_some pid pidx rest (i + 1) q
    | some pinp =>
      simp only [if_neg (fun hc => by cases hc.2 : ¬(lmk.position.getD pinp 0 ≥ pidx ∧ some q = none))]
      exact firstGE_some pid pidx rest (i + 1) q

lemma dist2_nonneg (a b : Pt3) : 0 ≤ dist2 a b := by
  unfold dist2
  positivity

lemma scanPts_le (pv : Pt3) (pi : ℕ) :
    ∀ (l : List Pt3) (j : ℕ) (fnd : ℕ × ℕ × ℚ),
    (scanPts pv pi l j fnd).2.2 ≤ fnd.2.2
  | [], _, _ => le_refl _
  | q :: rest, j, fnd => by
    rw [scanPts]
    by_cases hlt : dist2 pv q < fnd.2.2
    · rw [if_pos hlt]
      exact le_of_lt (lt_of_le_of_lt (scanPts_le pv pi rest (j + 1) (pi, j, dist2 pv q)) hlt)
    · rw [if_neg hlt]
      exact scanPts_le pv pi rest (j + 1) fnd

lemma scanPts_min (pv : Pt3) (pi : ℕ) :
    ∀ (l : List Pt3) (j : ℕ) (fnd : ℕ × ℕ × ℚ),
    ∀ q ∈ l, (scanPts pv pi l j fnd).2.2 ≤ dist2 pv q
  | [], _, _, q, hq => by simp at hq
  | x :: rest, j, fnd, q, hq => by
    rw [scanPts]
    rcases List.mem_cons.mp hq with rfl | hq
    · by_cases hlt : dist2 pv q < fnd.2.2
      · rw [if_pos hlt]
        exact scanPts_le pv pi rest (j + 1) (pi, j, dist2 pv q)
      · rw [if_neg hlt]
        exact le_trans (scanPts_le pv pi rest (j + 1) fnd) (le_of_not_lt hlt)
    · by_cases hlt : dist2 pv x < fnd.2.2
      · rw [if_pos hlt]
        exact scanPts_min pv pi rest (j + 1) (pi, j, dist2 pv x) q hq
      · rw [if_neg hlt]
        exact scanPts_min pv pi rest (j + 1) fnd q hq

lemma scanPts_achieve (pv : Pt3) (pi : ℕ) :
    ∀ (l : List Pt3) (j : ℕ) (fnd : ℕ × ℕ × ℚ),
    scanPts pv pi l j fnd = fnd ∨
      ∃ k q, l[k]? = some q ∧ scanPts pv pi l j fnd = (pi, j + k, dist2 pv q)
  | [], _, _ => Or.inl rfl
  | x :: rest, j, fnd => by
    rw [scanPts]
    by_cases hlt : dist2 pv x < fnd.2.2
    · rw [if_pos hlt]
      rcases scanPts_achieve pv pi rest (j + 1) (pi, j, dist2 pv x) with h | ⟨k, q, hk, hres⟩
      · right
        exact ⟨0, x, by simp, by rw [h]; simp⟩
      · right
        exact ⟨k + 1, q, by simpa using hk,
          by rw [hres, show j + 1 + k = j + (k + 1) from by omega]⟩
    · rw [if_neg hlt]
      rcases scanPts_achieve pv pi rest (j + 1) fnd with h | ⟨k, q, hk, hres⟩
      · exact Or.inl h
      · right
        exact ⟨k + 1, q, by simpa using hk,
          by rw [hres, show j + 1 + k = j + (k + 1) from by omega]⟩

lemma scanPaths_le (pv : Pt3) :
    ∀ (l : List GPath) (i : ℕ) (fnd : ℕ × ℕ × ℚ),
    (scanPaths pv l i fnd).2.2 ≤ fnd.2.2
  | [], _, _ => le_refl _
  | p :: rest, i, fnd => by
    rw [scanPaths]
    exact le_trans (scanPaths_le pv rest (i + 1) _)
      (scanPts_le pv i (p.points.take p.n) 0 fnd)

lemma scanPaths_min (pv : Pt3) :
    ∀ (l : List GPath) (i : ℕ) (fnd : ℕ × ℕ × ℚ) (k : ℕ) (p : GPath),
    l[k]? = some p → ∀ q ∈ p.points.take p.n,
    (scanPaths pv l i fnd).2.2 ≤ dist2 pv q
  | [], _, _, k, p, hk, q, hq => by simp at hk
  | p0 :: rest, i, fnd, k, p, hk, q, hq => by
    rw [scanPaths]
    cases k with
    | zero =>
      simp only [List.getElem?_cons_zero, Option.some.injEq] at hk
      subst hk
      exact le_trans (scanPaths_le pv rest (i + 1) _)
        (scanPts_min pv i (p0.points.take p0.n) 0 fnd q hq)
    | succ k0 =>
      simp only [List.getElem?_cons_succ] at hk
      exact scanPaths_min pv rest (i + 1) _ k0 p hk q hq

lemma scanPaths_achieve (pv : Pt3) :
    ∀ (l : List GPath) (i : ℕ) (fnd : ℕ × ℕ × ℚ),
    scanPaths pv l i fnd = fnd ∨
      ∃ k p m q, l[k]? = some p ∧ (p.points.take p.n)[m]? = some q ∧
        scanPaths pv l i fnd = (i + k, m, dist2 pv q)
  | [], _, _ => Or.inl rfl
  | p0 :: rest, i, fnd => by
    rw [scanPaths]
    rcases scanPaths_achieve pv rest (i + 1) (scanPts pv i (p0.points.take p0.n) 0 fnd) with
      hsp | ⟨k, p, m, q, hk, hm, hres⟩
    · rw [hsp]
      rcases scanPts_achieve pv i (p0.points.take p0.n) 0 fnd with h | ⟨m, q, hm, hres⟩
      · exact Or.inl h
      · right
        refine ⟨0, p0, m, q, by simp, hm, ?_⟩
        rw [hres]
        simp
    · right
      exact ⟨k + 1, p, m, q, by simpa using hk, hm,
        by rw [hres, show i + 1 + k = i + (k + 1) from by omega]⟩

lemma scanIvs_none (x : ℤ) :
    ∀ (l : List (ℤ × ℤ)) (v : ℤ),
    (∀ iv ∈ l, ¬(iv.1 ≤ x ∧ x ≤ iv.2)) → scanIvs x l v = none
  | [], _, _ => rfl
  | iv :: rest, v, h => by
    rw [scanIvs, if_neg (h iv (List.mem_cons_self iv rest))]
    exact scanIvs_none x rest _ (fun i hi => h i (List.mem_cons_of_mem _ hi))

/-- C1: for every pair of landmark ids both present in the landmark table that
share a common path, and every fraction `dst`, `_indexOnPath` returns the index
of a shared path together with `clamp(i0 + floor(dst * (i1 - i0)), 0, n - 1)`,
where `i0` and `i1` are the two landmarks' position indices at occurrences of
that shared path; the clamp puts the returned index in `[0, n - 1]` even for
fractions below 0 or above 1.  Hypotheses: the two ids are carried by landmarks
of the table (unique per id), they share a path, every path id carried by the
first landmark is in the path table, and every path has at least one point. -/
theorem indexOnPath_shared_clamped (cfg : GConfig) (lmid0 lmid1 : ℕ) (dst : ℚ)
    (l0 l1 : Landmark)
    (hl0m : l0 ∈ cfg.landmarks) (hl0 : l0.id = lmid0)
    (hl1m : l1 ∈ cfg.landmarks) (hl1 : l1.id = lmid1)
    (huniq : ∀ a ∈ cfg.landmarks, ∀ b ∈ cfg.landmarks, a.id = b.id → a = b)
    (hshare : ∃ p, p ∈ l0.paths ∧ p ∈ l1.paths)
    (hwf : ∀ p ∈ l0.paths, (pathIdxFromId cfg.paths p).isSome)
    (hn : ∀ pth ∈ cfg.paths, 1 ≤ pth.n) :
    ∃ li ji p pidx pth idx,
      l0.paths[li]? = some p ∧ l1.paths[ji]? = some p ∧
      cfg.paths[pidx]? = some pth ∧ pth.id = p ∧
      idx = clampI (l0.position.getD li 0 +
          ⌊((l1.position.getD ji 0 - l0.position.getD li 0 : ℤ) : ℚ) * dst⌋)
        0 ((pth.n : ℤ) - 1) ∧
      indexOnPath cfg lmid0 lmid1 dst = (some pidx, some idx) ∧
      0 ≤ idx ∧ idx ≤ (pth.n : ℤ) - 1 := by
  have hfind := findLmks_isSome lmid0 lmid1 cfg.landmarks none none
    (Or.inr ⟨l0, hl0m, hl0⟩) (Or.inr ⟨l1, hl1m, hl1⟩)
  obtain ⟨f0, hf0⟩ := Option.isSome_iff_exists.mp hfind.1
  obtain ⟨f1, hf1⟩ := Option.isSome_iff_exists.mp hfind.2
  have hprop := findLmks_prop lmid0 lmid1 cfg.landmarks cfg.landmarks none none
    (fun l hl => hl) (fun l hl => by cases hl) (fun l hl => by cases hl)
  have hf0p := hprop.1 f0 hf0
  have hf1p := hprop.2 f1 hf1
  have heq0 : f0 = l0 := huniq f0 hf0p.2 l0 hl0m (hf0p.1.trans hl0.symm)
  have heq1 : f1 = l1 := huniq f1 hf1p.2 l1 hl1m (hf1p.1.trans hl1.symm)
  rw [heq0] at hf0
  rw [heq1] at hf1
  have hpair : findLmks lmid0 lmid1 cfg.landmarks none none = (some l0, some l1) :=
    Prod.ext hf0 hf1
  obtain ⟨p, hp0, hp1⟩ := hshare
  have hssome := sharedScan_isSome cfg.paths l1.paths l0.paths ⟨p, hp0, hp1, hwf p hp0⟩
  obtain ⟨r, hsc⟩ := Option.isSome_iff_exists.mp hssome
  obtain ⟨li, ji, q, pidx⟩ := r
  have hchar := sharedScan_get cfg.paths l1.paths l0.paths li ji q pidx hsc
  obtain ⟨pth, hpth, hpthid⟩ := pathIdxFromId_get q cfg.paths pidx hchar.2.2
  have hd : cfg.paths.getD pidx default = pth := getD_of_getElem? default hpth
  have hnn : 1 ≤ pth.n := hn pth (mem_of_getElem?' hpth)
  have hres : indexOnPath cfg lmid0 lmid1 dst =
      (some pidx, some (clampI (l0.position.getD li 0 +
          ⌊((l1.position.getD ji 0 - l0.position.getD li 0 : ℤ) : ℚ) * dst⌋)
        0 ((pth.n : ℤ) - 1))) := by
    simp only [indexOnPath, hpair, hsc, hd]
  have hb := clampI_bounds (l0.position.getD li 0 +
      ⌊((l1.position.getD ji 0 - l0.position.getD li 0 : ℤ) : ℚ) * dst⌋)
    0 ((pth.n : ℤ) - 1) (by omega)
  exact ⟨li, ji, q, pidx, pth, _, hchar.1,
    lastIdxOf_get q l1.paths ji hchar.2.1, hpth, hpthid, rfl, hres, hb.1, hb.2⟩

/-- C1 witness: in the sample configuration with landmarks 1 and 2 on path 0 at
positions 2 and 8 (n = 10), fraction 3 (above 1) is still resolved, to the
clamped index 9. -/
theorem indexOnPath_shared_clamped_witness :
    ∃ li ji p pidx pth idx,
      lmkA.paths[li]? = some p ∧ lmkB.paths[ji]? = some p ∧
      sampleCfg.paths[pidx]? = some pth ∧ pth.id = p ∧
      idx = clampI (lmkA.position.getD li 0 +
          ⌊((lmkB.position.getD ji 0 - lmkA.position.getD li 0 : ℤ) : ℚ) * 3⌋)
        0 ((pth.n : ℤ) - 1) ∧
      indexOnPath sampleCfg 1 2 3 = (some pidx, some idx) ∧
      0 ≤ idx ∧ idx ≤ (pth.n : ℤ) - 1 :=
  indexOnPath_shared_clamped sampleCfg 1 2 3 lmkA lmkB
    (by decide) (by decide) (by decide) (by decide) (by decide)
    ⟨0, by decide, by decide⟩ (by decide) (by decide)

/-- C8: `_indexOnPath` returns NotFound (`[undefined, undefined]`, modelled as
`(none, none)`) whenever either landmark id is absent from the landmark table
or the two landmarks' path lists share no path id. -/
theorem indexOnPath_notfound (cfg : GConfig) (lmid0 lmid1 : ℕ) (dst : ℚ)
    (h : (∀ l ∈ cfg.landmarks, l.id ≠ lmid0) ∨ (∀ l ∈ cfg.landmarks, l.id ≠ lmid1) ∨
      (∀ a ∈ cfg.landmarks, ∀ b ∈ cfg.landmarks, a.id = lmid0 → b.id = lmid1 →
        ∀ p ∈ a.paths, p ∉ b.paths)) :
    indexOnPath cfg lmid0 lmid1 dst = (none, none) := by
  have hprop := findLmks_prop lmid0 lmid1 cfg.landmarks cfg.landmarks none none
    (fun l hl => hl) (fun l hl => by cases hl) (fun l hl => by cases hl)
  cases hr : findLmks lmid0 lmid1 cfg.landmarks none none with
  | mk m0 m1 =>
    cases m0 with
    | none => simp [indexOnPath, hr]
    | some f0 =>
      cases m1 with
      | none => simp [indexOnPath, hr]
      | some f1 =>
        have hf0 := hprop.1 f0 (by rw [hr])
        have hf1 := hprop.2 f1 (by rw [hr])
        rcases h with h | h | h
        · exact absurd hf0.1 (h f0 hf0.2)
        · exact absurd hf1.1 (h f1 hf1.2)
        · have hdisj : ∀ q ∈ f0.paths, q ∉ f1.paths :=
            h f0 hf0.2 f1 hf1.2 hf0.1 hf1.1
          have hnone := sharedScan_none_of_disjoint cfg.paths f1.paths f0.paths hdisj
          simp [indexOnPath, hr, hnone]

/-- C8 witness: landmark 1 occurs only on path 0 and landmark 2 only on path 1,
so the resolution returns NotFound. -/
theorem indexOnPath_notfound_witness :
    indexOnPath disjCfg 1 2 (1 / 2) = (none, none) :=
  indexOnPath_notfound disjCfg 1 2 (1 / 2) (Or.inr (Or.inr (by decide)))

/-- C2 counterexample: in the sample configuration, resolving the current
position from landmark ids 1 and 99 (no landmark has id 99) returns NotFound,
yet `setPosition` does not leave the position state unchanged: starting from
the construction-time state (path 0, index 0, ROI [0, 0]) it overwrites the
current path and index with `undefined` and the ROI with the two successful
resolutions, and the rendering update then throws.  The claimed outcome -
state unchanged and silent - is therefore false at this input. -/
theorem setPosition_notfound_cex :
    indexOnPath sampleCfg 1 99 (1 / 2) = (none, none) ∧
    setPosition sampleCfg 1 99 (1 / 2) 1 2 0 1 2 1 =
      (⟨none, none, some 2, some 8⟩, true) ∧
    (⟨none, none, some 2, some 8⟩ : PosState) ≠ ⟨some 0, some 0, some 0, some 0⟩ := by
  refine ⟨by decide, by decide, by decide⟩

/-- C2 amended: `setPosition` calls `_updatePosition` unconditionally, so the
`CurrentPositionState` is always overwritten wholesale with the components of
the three resolutions (undefined components included); when the current
position resolution returns NotFound the rendering update throws.  No silent
no-change behaviour exists. -/
theorem setPosition_overwrites (cfg : GConfig) (pmk0 pmk1 : ℕ) (pdt : ℚ)
    (smk0 smk1 : ℕ) (sdt : ℚ) (emk0 emk1 : ℕ) (edt : ℚ) :
    (setPosition cfg pmk0 pmk1 pdt smk0 smk1 sdt emk0 emk1 edt).1 =
      ⟨(indexOnPath cfg pmk0 pmk1 pdt).1, (indexOnPath cfg pmk0 pmk1 pdt).2,
       (indexOnPath cfg smk0 smk1 sdt).2, (indexOnPath cfg emk0 emk1 edt).2⟩ ∧
    ((indexOnPath cfg pmk0 pmk1 pdt).1 = none →
      (setPosition cfg pmk0 pmk1 pdt smk0 smk1 sdt emk0 emk1 edt).2 = true) := by
  constructor
  · rfl
  · intro h
    simp only [setPosition, updatePosition, h]

/-- C2 amended witness: the overwrite equation and the throw at the concrete
failing input of the counterexample. -/
theorem setPosition_overwrites_witness :
    (setPosition sampleCfg 1 99 (1 / 2) 1 2 0 1 2 1).1 =
      ⟨(indexOnPath sampleCfg 1 99 (1 / 2)).1, (indexOnPath sampleCfg 1 99 (1 / 2)).2,
       (indexOnPath sampleCfg 1 2 0).2, (indexOnPath sampleCfg 1 2 1).2⟩ ∧
    (setPosition sampleCfg 1 99 (1 / 2) 1 2 0 1 2 1).2 = true :=
  ⟨(setPosition_overwrites sampleCfg 1 99 (1 / 2) 1 2 0 1 2 1).1,
   (setPosition_overwrites sampleCfg 1 99 (1 / 2) 1 2 0 1 2 1).2 (by decide)⟩

/-- C9: `getPosition` computes the fraction `(index - p0) / (p1 - p0)` with no
special case for a zero divisor.  In the sample configuration, querying path 0
at index 2 - the position of landmark 1 - makes landmark 1 both the lower and
the upper enclosing landmark, forcing a division by zero whose JS result is
NaN rather than a finite fraction (`none` in the embedding). -/
theorem getPosition_div_by_zero :
    getPosition sampleCfg 0 2 = some (0, 0, none) ∧
    (sampleCfg.landmarks.getD 0 default).position.getD 0 0 = 2 := by
  refine ⟨by decide, by decide⟩

/-- C3 counterexample: the query point equal to `paths[0].points[3]` with
tolerance 0 returns NotFound, because the source guard is `fnd[2] < tol` - the
minimum squared distance is compared strictly against the raw tolerance, not
against `tolerance^2` - so the claimed result `(path 0, index 3, distance 0)`
is not produced. -/
theorem positionToPath_tol_zero_cex :
    ((sampleCfg.paths.getD 0 default).points.take (sampleCfg.paths.getD 0 default).n)[3]? =
      some ⟨3, 0, 0⟩ ∧
    positionToPath sampleCfg ⟨3, 0, 0⟩ 0 = none := by
  refine ⟨by decide, by decide⟩

/-- C3 amended: `positionToPath` keeps the single closest path point by squared
distance (first in scan order on ties), and the guard compares the squared
distance with the raw tolerance, strictly: a result is returned exactly when
the minimum squared distance is below `tol` itself, NotFound is returned when
every scanned point is at squared distance at least `tol`, tolerance 0 always
yields NotFound, and an exact hit is returned with squared distance 0 for any
positive tolerance. -/
theorem positionToPath_amended (cfg : GConfig) (pos : Pt3) (tol : ℚ)
    (htol : tol ≤ MAXVALUE) :
    (∀ r, positionToPath cfg pos tol = some r →
      r.2.2 < tol ∧
      (∃ (k : ℕ) (pth : GPath) (m : ℕ) (q : Pt3), cfg.paths[k]? = some pth ∧
        (pth.points.take pth.n)[m]? = some q ∧
        r = (k, m, dist2 pos q)) ∧
      (∀ (k : ℕ) (pth : GPath), cfg.paths[k]? = some pth → ∀ q ∈ pth.points.take pth.n,
        r.2.2 ≤ dist2 pos q)) ∧
    (positionToPath cfg pos tol = none →
      ∀ (k : ℕ) (pth : GPath), cfg.paths[k]? = some pth → ∀ q ∈ pth.points.take pth.n,
        tol ≤ dist2 pos q) ∧
    (tol = 0 → positionToPath cfg pos tol = none) ∧
    (∀ (k : ℕ) (pth : GPath) (m : ℕ) (q : Pt3), cfg.paths[k]? = some pth →
      (pth.points.take pth.n)[m]? = some q →
      q = pos → 0 < tol → ∃ pi pj, positionToPath cfg pos tol = some (pi, pj, 0)) := by
  have hnn : 0 ≤ (scanPaths pos cfg.paths 0 (0, 0, MAXVALUE)).2.2 := by
    rcases scanPaths_achieve pos cfg.paths 0 (0, 0, MAXVALUE) with h | ⟨k, p, m, q, _, _, h⟩
    · rw [h]
      unfold MAXVALUE
      positivity
    · rw [h]
      exact dist2_nonneg pos q
  refine ⟨?_, ?_, ?_, ?_⟩
  · intro r hr
    rw [positionToPath] at hr
    by_cases hlt : (scanPaths pos cfg.paths 0 (0, 0, MAXVALUE)).2.2 < tol
    · rw [if_pos hlt] at hr
      cases hr
      refine ⟨hlt, ?_, ?_⟩
      · rcases scanPaths_achieve pos cfg.paths 0 (0, 0, MAXVALUE) with h | ⟨k, p, m, q, hk, hm, h⟩
        · rw [h] at hlt
          exact absurd (lt_of_lt_of_le hlt htol) (lt_irrefl _)
        · refine ⟨k, p, m, q, hk, hm, ?_⟩
          rw [h]
          simp
      · intro k pth hk q hq
        exact scanPaths_min pos cfg.paths 0 (0, 0, MAXVALUE) k pth hk q hq
    · rw [if_neg hlt] at hr
      cases hr
  · intro hr k pth hk q hq
    rw [positionToPath] at hr
    by_cases hlt : (scanPaths pos cfg.paths 0 (0, 0, MAXVALUE)).2.2 < tol
    · rw [if_pos hlt] at hr
      cases hr
    · exact le_trans (le_of_not_lt hlt)
        (scanPaths_min pos cfg.paths 0 (0, 0, MAXVALUE) k pth hk q hq)
  · intro h0
    subst h0
    rw [positionToPath, if_neg (not_lt_of_le hnn)]
  · intro k pth m q hk hm hq h0
    have hmem : q ∈ pth.points.take pth.n := mem_of_getElem?' hm
    have hle : (scanPaths pos cfg.paths 0 (0, 0, MAXVALUE)).2.2 ≤ 0 := by
      have := scanPaths_min pos cfg.paths 0 (0, 0, MAXVALUE) k pth hk q hmem
      rw [hq] at this
      simpa [dist2] using this
    have hz : (scanPaths pos cfg.paths 0 (0, 0, MAXVALUE)).2.2 = 0 := le_antisymm hle hnn
    refine ⟨(scanPaths pos cfg.paths 0 (0, 0, MAXVALUE)).1,
      (scanPaths pos cfg.paths 0 (0, 0, MAXVALUE)).2.1, ?_⟩
    rw [positionToPath, if_pos (by rw [hz]; exact h0)]
    rw [← hz]

/-- C3 amended witness: with tolerance 1 the exact hit at `points[3]` is
returned with squared distance 0. -/
theorem positionToPath_amended_witness :
    ∃ pi pj, positionToPath sampleCfg ⟨3, 0, 0⟩ 1 = some (pi, pj, 0) :=
  (positionToPath_amended sampleCfg ⟨3, 0, 0⟩ 1 (by decide)).2.2.2
    0 (sampleCfg.paths.getD 0 default) 3 ⟨3, 0, 0⟩
    (by decide) (by decide) (by decide) (by decide)

/-- C4: round-trip between `getPosition` and `_indexOnPath`.  The landmark
table is `L1 ++ A :: (L2 ++ B :: L3)` with `A` and `B` adjacent on the queried
path in position-sorted table order: every landmark of `L1` on the path sits
strictly below the queried index `i`, none of `L2` is on the path, every
landmark of `L3` on the path sits strictly above `i`, and `pa < i < pb`.  Then
`getPosition` returns exactly the pair `(A, B)` (as table indices) with
fraction `(i - pa) / (pb - pa)`, and feeding that fraction back into
`_indexOnPath` reconstructs the index `i` exactly (hence within the floor
rounding error 1 allowed by the claim). -/
theorem getPosition_indexOnPath_roundtrip (cfg : GConfig) (pid : ℕ) (i : ℤ)
    (L1 L2 L3 : List Landmark) (A B : Landmark) (ja jb : ℕ) (pa pb : ℤ)
    (pidx : ℕ) (f : ℚ)
    (hsplit : cfg.landmarks = L1 ++ A :: (L2 ++ B :: L3))
    (hAon : A.paths.findIdx? (· = pid) = some ja)
    (hBon : B.paths.findIdx? (· = pid) = some jb)
    (hApos : A.position.getD ja 0 = pa)
    (hBpos : B.position.getD jb 0 = pb)
    (hpa : pa < i) (hpb : i < pb)
    (hL1 : ∀ l ∈ L1, ∀ j, l.paths.findIdx? (· = pid) = some j →
      l.position.getD j 0 < i)
    (hL2 : ∀ l ∈ L2, l.paths.findIdx? (· = pid) = none)
    (hL3 : ∀ l ∈ L3, ∀ j, l.paths.findIdx? (· = pid) = some j →
      i < l.position.getD j 0)
    (hid1 : ∀ l ∈ L1, l.id ≠ A.id ∧ l.id ≠ B.id)
    (hid2 : ∀ l ∈ L2, l.id ≠ A.id ∧ l.id ≠ B.id)
    (hidAB : A.id ≠ B.id)
    (hscan : sharedScan cfg.paths B.paths A.paths = some (ja, jb, pid, pidx))
    (hn0 : 0 ≤ i) (hn1 : i ≤ ((cfg.paths.getD pidx default).n : ℤ) - 1)
    (hf : f = ((i : ℚ) - (pa : ℚ)) / ((pb : ℚ) - (pa : ℚ))) :
    getPosition cfg pid i = some (L1.length, L1.length + L2.length + 1, some f) ∧
    indexOnPath cfg A.id B.id f = (some pidx, some i) := by
  have hab : pa < pb := lt_trans hpa hpb
  have hpbpa : ((pb : ℚ) - (pa : ℚ)) ≠ 0 := by
    have h1 : (pa : ℚ) < (pb : ℚ) := by exact_mod_cast hab
    intro hc
    linarith
  have hloop := getPosLoop_eq pid i cfg.landmarks 0 none none
    (fun q hq => by cases hq) (fun q hq => by cases hq)
  have hlast : lastLE pid i cfg.landmarks 0 none = some (L1.length, ja) := by
    rw [hsplit, lastLE_append, lastLE]
    simp only [hAon, Nat.zero_add]
    rw [if_pos (by rw [hApos]; omega)]
    refine lastLE_nocond pid i (L2 ++ B :: L3) (L1.length + 1) (some (L1.length, ja)) ?_
    intro l hl j hfind
    rcases List.mem_append.mp hl with h2 | h3
    · rw [hL2 l h2] at hfind
      cases hfind
    · rcases List.mem_cons.mp h3 with rfl | h3
      · rw [hBon] at hfind
        cases hfind
        rw [hBpos]
        omega
      · have := hL3 l h3 j hfind
        omega
  have hfirst : firstGE pid i cfg.landmarks 0 none =
      some (L1.length + L2.length + 1, jb) := by
    rw [hsplit, firstGE_append]
    rw [firstGE_nocond pid i L1 0 none
      (fun l hl j hfind => by have := hL1 l hl j hfind; omega)]
    rw [firstGE]
    simp only [hAon, Nat.zero_add]
    rw [if_neg (fun hc => by rw [hApos] at hc; omega)]
    rw [firstGE_append]
    rw [firstGE_nocond pid i L2 (L1.length + 1) none
      (fun l hl j hfind => by rw [hL2 l hl] at hfind; cases hfind)]
    rw [firstGE]
    simp only [hBon]
    rw [if_pos ⟨by rw [hBpos]; omega, trivial⟩]
    rw [firstGE_some]
    rw [show L1.length + 1 + L2.length = L1.length + L2.length + 1 from by omega]
  have hgA : cfg.landmarks.getD L1.length default = A := by
    rw [hsplit]
    exact getD_append_len L1 A _ default
  have hsplit2 : cfg.landmarks = (L1 ++ A :: L2) ++ B :: L3 := by
    rw [hsplit]
    simp [List.append_assoc]
  have hlen2 : L1.length + L2.length + 1 = (L1 ++ A :: L2).length := by
    simp [List.length_append]
    omega
  have hgB : cfg.landmarks.getD (L1.length + L2.length + 1) default = B := by
    rw [hsplit2, hlen2]
    exact getD_append_len (L1 ++ A :: L2) B _ default
  constructor
  · rw [getPosition, hloop, hlast, hfirst]
    simp only [hgA, hgB, hApos, hBpos]
    rw [jsDiv, if_neg hpbpa, hf]
  · have hfind : findLmks A.id B.id cfg.landmarks none none = (some A, some B) := by
      rw [hsplit, findLmks_skipAll A.id B.id L1 hid1, findLmks_cons]
      rw [if_neg (by simp)]
      rw [if_pos rfl, if_neg hidAB]
      rw [findLmks_skipAll A.id B.id L2 hid2, findLmks_cons]
      rw [if_neg (by simp)]
      rw [if_neg (fun h => hidAB h.symm), if_pos rfl]
      exact findLmks_both A.id B.id L3 A B
    have hmul : ((B.position.getD jb 0 - A.position.getD ja 0 : ℤ) : ℚ) * f =
        ((i - pa : ℤ) : ℚ) := by
      rw [hApos, hBpos, hf]
      push_cast
      rw [mul_comm, div_mul_cancel₀ _ hpbpa]
    rw [indexOnPath, hfind]
    simp only [hscan]
    rw [hmul, Int.floor_intCast, hApos]
    rw [show pa + (i - pa) = i from by omega]
    rw [clampI_eq_self i 0 _ hn0 hn1]

/-- C4 witness: the concrete scenario of the spec - landmarks 1 and 2 at
positions 2 and 8 of path 0, index 5 strictly between them - yields fraction
1/2 and the fraction feeds back to index 5 exactly. -/
theorem getPosition_indexOnPath_roundtrip_witness :
    getPosition sampleCfg 0 5 = some (0, 1, some (1 / 2)) ∧
    indexOnPath sampleCfg lmkA.id lmkB.id (1 / 2) = (some 0, some 5) :=
  getPosition_indexOnPath_roundtrip sampleCfg 0 5 [] [] [] lmkA lmkB 0 0 2 8 0 (1 / 2)
    rfl (by decide) (by decide) (by decide) (by decide) (by decide) (by decide)
    (by simp) (by simp) (by simp) (by simp) (by simp) (by decide) (by decide)
    (by decide) (by decide) (by decide)

/-- C5: pick aggregation, evaluated on the two decisive hit lists.
First conjunct - the claimed concrete scenario holds: three hits on path
object `path-1` and one hit on landmark `lm-7` emit exactly two entries, the
path entry carrying the centroid (1, 2, 0) of the three hit points (0, 0, 0),
(3, 0, 0) and (0, 6, 0).
Second conjunct - the general accumulation claim fails for the
landmark/marker category: two hits on the same landmark `lm-7` at (1, 1, 1)
and (3, 3, 3) emit one entry whose position is the first hit point, not the
centroid (2, 2, 2), because the landmark branch of the source guards and
updates the running sums through `idx.pth` instead of `idx.mkm`, so the
accumulation of repeated landmark/marker hits is unreachable code. -/
theorem picker_aggregation_eval :
    picker pickCfg 0 [pHit ⟨0, 0, 0⟩, pHit ⟨3, 0, 0⟩, pHit ⟨0, 6, 0⟩, lHit ⟨5, 5, 5⟩] =
      some [(pathPfx, ['1'], some ⟨1, 2, 0⟩), (lmPfx, ['7'], some ⟨5, 5, 5⟩)] ∧
    picker pickCfg 0 [lHit ⟨1, 1, 1⟩, lHit ⟨3, 3, 3⟩] =
      some [(lmPfx, ['7'], some ⟨1, 1, 1⟩)] ∧
    divPt (addPt ⟨1, 1, 1⟩ ⟨3, 3, 3⟩) 2 = ⟨2, 2, 2⟩ ∧
    (⟨1, 1, 1⟩ : Pt3) ≠ ⟨2, 2, 2⟩ := by
  refine ⟨by decide, by decide, by decide, by decide⟩

/-- C6: anatomy-surface pick resolution, evaluated on the decisive hits.
First conjunct - a hit on a degenerate (zero-area) triangle does not drop the
entity: `_baryCoords` returns undefined and the source dereferences `tw[0]`
without a check, so the whole pick event throws (modelled by `none`) and the
client callback is never invoked.
Second and third conjuncts - for a proper triangle hit exactly at vertex 1,
whose per-vertex mapping values are 0, 9, 9, barycentric interpolation of the
three values would give path index 9 (point (19, 0, 0)), but the source reads
all three values from `an.mapping[ti[i]]` with `i` the entry index (0 here),
so it uses the single value 0 and emits path point (10, 0, 0). -/
theorem picker_degenerate_eval :
    picker pickCfg 0 [aHitDegen] = none ∧
    picker pickCfg 0 [aHitVertex1] =
      some [(anaPfx, ['g', '1'], some ⟨10, 0, 0⟩)] ∧
    (pickCfg.paths.getD 0 default).points.getD 9 default = ⟨19, 0, 0⟩ := by
  refine ⟨by decide, by decide, by decide⟩

/-- C7: the domain-map lookup `_getObjValue` returns Miss (`undefined`,
modelled as `none`) - never zero or any other value - whenever the truncated,
origin-offset coordinate falls outside the bounding rectangle, or inside it
but in a gap between the intervals of its line. -/
theorem getObjValue_miss (map : DomainMap) (x y : ℚ)
    (h : ¬(0 ≤ jsTrunc y - map.line1 ∧ jsTrunc y - map.line1 ≤ map.lastln - map.line1 ∧
          0 ≤ jsTrunc x - map.kol1 ∧ jsTrunc x - map.kol1 ≤ map.lastkl - map.kol1) ∨
      (∀ iv ∈ map.intvlines.getD (jsTrunc y - map.line1).toNat [],
        ¬(iv.1 ≤ jsTrunc x - map.kol1 ∧ jsTrunc x - map.kol1 ≤ iv.2))) :
    getObjValue map x y = none := by
  rw [getObjValue]
  by_cases hin : 0 ≤ jsTrunc y - map.line1 ∧ jsTrunc y - map.line1 ≤ map.lastln - map.line1 ∧
      0 ≤ jsTrunc x - map.kol1 ∧ jsTrunc x - map.kol1 ≤ map.lastkl - map.kol1
  · rcases h with h | h
    · exact absurd hin h
    · rw [if_pos hin, scanIvs_none (jsTrunc x - map.kol1) _ _ h]
  · rw [if_neg hin]

/-- C7 witness: in the sample domain map, column 5 is one unit outside
`lastkl = 4`, so the lookup at (5, 0) is a Miss; and (2, 0), inside the
rectangle but in the gap between the intervals [0, 1] and [3, 4] of line 0, is
a Miss as well. -/
theorem getObjValue_miss_witness :
    getObjValue sampleMap 5 0 = none ∧ getObjValue sampleMap 2 0 = none :=
  ⟨getObjValue_miss sampleMap 5 0 (Or.inl (by decide)),
   getObjValue_miss sampleMap 2 0 (Or.inr (by decide))⟩

/-- C10: `mapIntervalToMidline` accepts the four landmarks exactly when all
four anatomy-id lookups succeed and each consecutive pair agrees on the first
listed path `paths[0]`, and it computes its start and end indices as
`position + floor(fraction * position difference)` with no clamping, so
fractions outside [0, 1] can produce indices outside `[0, n - 1]`: in the
sample configuration (positions 2 and 8 on a path with n = 10), fraction 2
for the start pair yields start index 14 > 9. -/
theorem mapIntervalToMidline_unclamped :
    (∀ (cfg : GConfig) (a0 a1 : ℕ) (f0 : ℚ) (a2 a3 : ℕ) (f1 : ℚ) r,
      mapIntervalToMidline cfg a0 a1 f0 a2 a3 f1 = some r →
      ∃ l0 l1 l2 l3,
        landmarkFromAnatID cfg a0 = some l0 ∧ landmarkFromAnatID cfg a1 = some l1 ∧
        landmarkFromAnatID cfg a2 = some l2 ∧ landmarkFromAnatID cfg a3 = some l3 ∧
        l0.paths.head? = l1.paths.head? ∧ l1.paths.head? = l2.paths.head? ∧
        l2.paths.head? = l3.paths.head? ∧
        r = (l3.paths.head?,
          jsAdd (toNum l0.position)
            (jsFloorO (jsMul (some f0) (jsSub (toNum l1.position) (toNum l0.position)))),
          jsAdd (toNum l2.position)
            (jsFloorO (jsMul (some f1) (jsSub (toNum l3.position) (toNum l2.position)))))) ∧
    mapIntervalToMidline sampleCfg 20 21 2 20 21 0 = some (some 0, some 14, some 2) ∧
    ((sampleCfg.paths.getD 0 default).n : ℚ) - 1 = 9 ∧ ¬((14 : ℚ) ≤ 9) := by
  refine ⟨?_, by decide, by decide, by decide⟩
  intro cfg a0 a1 f0 a2 a3 f1 r h
  rw [mapIntervalToMidline] at h
  cases h0 : landmarkFromAnatID cfg a0 with
  | none => simp only [h0] at h; cases h
  | some l0 =>
    cases h1 : landmarkFromAnatID cfg a1 with
    | none => simp only [h0, h1] at h; cases h
    | some l1 =>
      cases h2 : landmarkFromAnatID cfg a2 with
      | none => simp only [h0, h1, h2] at h; cases h
      | some l2 =>
        cases h3 : landmarkFromAnatID cfg a3 with
        | none => simp only [h0, h1, h2, h3] at h; cases h
        | some l3 =>
          simp only [h0, h1, h2, h3] at h
          by_cases hc : l0.paths.head? = l1.paths.head? ∧
              l1.paths.head? = l2.paths.head? ∧ l2.paths.head? = l3.paths.head?
          · rw [if_pos hc] at h
            cases h
            exact ⟨l0, l1, l2, l3, rfl, rfl, rfl, rfl, hc.1, hc.2.1, hc.2.2, rfl⟩
          · rw [if_neg hc] at h
            cases h

/-- C10 witness: the acceptance characterization applied at the concrete
out-of-range instance. -/
theorem mapIntervalToMidline_unclamped_witness :
    ∃ l0 l1 l2 l3,
      landmarkFromAnatID sampleCfg 20 = some l0 ∧
      landmarkFromAnatID sampleCfg 21 = some l1 ∧
      landmarkFromAnatID sampleCfg 20 = some l2 ∧
      landmarkFromAnatID sampleCfg 21 = some l3 ∧
      l0.paths.head? = l1.paths.head? ∧ l1.paths.head? = l2.paths.head? ∧
      l2.paths.head? = l3.paths.head? ∧
      ((some 0, some 14, some 2) : Option ℕ × Option ℚ × Option ℚ) =
        (l3.paths.head?,
          jsAdd (toNum l0.position)
            (jsFloorO (jsMul (some 2) (jsSub (toNum l1.position) (toNum l0.position)))),
          jsAdd (toNum l2.position)
            (jsFloorO (jsMul (some 0) (jsSub (toNum l3.position) (toNum l2.position))))) :=
  mapIntervalToMidline_unclamped.1 sampleCfg 20 21 2 20 21 0
    (some 0, some 14, some 2) mapIntervalToMidline_unclamped.2.1
